import Mathlib

/-!
Shallow embedding of `src/evolvepro/plm/esm/extract_mps.py`.

The script loads a pretrained protein-language model, batches FASTA
sequences, runs forward inference, and saves selected representations
per sequence; an optional pass concatenates mean representations into a
CSV.  Tensors are modelled as (nested) lists of rationals, the saved
per-sequence result dictionary as an association list from string keys
to a value type, and the stateful `run` function as a function producing
a trace of events together with an optional error.
-/

/-- Compute devices the script can select (`torch.device` targets). -/
inductive Device where
  | mps
  | cuda
  | cpu
deriving DecidableEq

/-- Embeds `get_device` (lines 76-83): MPS if available, else CUDA if available,
else CPU. The two booleans model the two availability probes. -/
def get_device (mpsAvailable : Bool) (cudaAvailable : Bool) : Device :=
  if mpsAvailable then Device.mps
  else if cudaAvailable then Device.cuda
  else Device.cpu

/-- Values stored in a saved per-sequence result dictionary:
the label string, a per-layer map of per-token matrices
(`representations`), a per-layer map of vectors (`mean_representations`,
`bos_representations`), or a contact matrix (`contacts`). -/
inductive RValue where
  | vstr (s : String)
  | vlayerMat (m : List (Nat × List (List ℚ)))
  | vlayerVec (m : List (Nat × List ℚ))
  | vmat (m : List (List ℚ))
deriving DecidableEq

/-- The slice `t[i, 1 : truncate_len + 1]` (line 145): drop the BOS row, keep the
next `truncate_len` token rows. -/
def sliceTokens (t : List (List ℚ)) (truncate_len : Nat) : List (List ℚ) :=
  (t.drop 1).take truncate_len

/-- The slice `contacts[i, :truncate_len, :truncate_len]` (lines 158-160). -/
def sliceContacts (m : List (List ℚ)) (truncate_len : Nat) : List (List ℚ) :=
  (m.take truncate_len).map (fun row => row.take truncate_len)

/-- Row-wise sum of a list of equal-length vectors (dimension-0 sum). -/
def sumRows : List (List ℚ) → List ℚ
  | [] => []
  | [r] => r
  | r :: rs => List.zipWith (· + ·) r (sumRows rs)

/-- Torch `.mean(0)` over a tokens-by-dim matrix (line 150). -/
def meanRows (rows : List (List ℚ)) : List ℚ :=
  (sumRows rows).map (fun x => x / (rows.length : ℚ))

/-- The per-sequence result dictionary assembled in `run` (lines 136-160):
always a `label` entry, then conditionally `representations`,
`mean_representations`, `bos_representations` and `contacts`, in that
order, driven by `args.include`.  `reprRow` is this sequence's row of
each layer's representation tensor (`t[i]`), `contactsRow` its contact
matrix (`contacts[i]`). -/
def buildResult (inc : List String) (label : String)
    (reprRow : List (Nat × List (List ℚ)))
    (contactsRow : List (List ℚ))
    (truncation_seq_length : Nat) (strLen : Nat) : List (String × RValue) :=
  let truncate_len := min truncation_seq_length strLen
  let r := [("label", RValue.vstr label)]
  let r := if inc.contains "per_tok" then
      r ++ [("representations",
        RValue.vlayerMat (reprRow.map (fun p => (p.1, sliceTokens p.2 truncate_len))))]
    else r
  let r := if inc.contains "mean" then
      r ++ [("mean_representations",
        RValue.vlayerVec (reprRow.map (fun p => (p.1, meanRows (sliceTokens p.2 truncate_len)))))]
    else r
  let r := if inc.contains "bos" then
      r ++ [("bos_representations",
        RValue.vlayerVec (reprRow.map (fun p => (p.1, p.2.headD []))))]
    else r
  let r := if inc.contains "contacts" then
      r ++ [("contacts", RValue.vmat (sliceContacts contactsRow truncate_len))]
    else r
  r

/-- The set of result keys the spec says is implied by the
`--include` flags. -/
def impliedKeys (inc : List String) : List String :=
  (if inc.contains "per_tok" then ["representations"] else []) ++
  (if inc.contains "mean" then ["mean_representations"] else []) ++
  (if inc.contains "bos" then ["bos_representations"] else []) ++
  (if inc.contains "contacts" then ["contacts"] else [])

/-- Layer-index normalization `(i + num_layers + 1) % (num_layers + 1)`
(lines 113-115); `%` is Python's nonnegative modulo, i.e. `Int.emod`
for a positive modulus. -/
def normalizeLayer (num_layers : Nat) (i : Int) : Int :=
  (i + num_layers + 1) % ((num_layers : Int) + 1)

/-- The list comprehension of lines 113-115. -/
def normalizeLayers (num_layers : Nat) (repr_layers : List Int) : List Int :=
  repr_layers.map (normalizeLayer num_layers)

/-- The assertion of lines 110-112: every requested index lies in
`[-(num_layers + 1), num_layers]`. -/
def layersInRange (num_layers : Nat) (repr_layers : List Int) : Bool :=
  repr_layers.all (fun i =>
    decide (-((num_layers : Int) + 1) ≤ i ∧ i ≤ (num_layers : Int)))

/-- Does `pat` start the list `s`? -/
def leadsWith : List Char → List Char → Bool
  | [], _ => true
  | _ :: _, [] => false
  | p :: ps, c :: cs => p == c && leadsWith ps cs

/-- Does `pat` occur as a contiguous substring of `s`? -/
def hasSubstr (pat : List Char) : List Char → Bool
  | [] => leadsWith pat []
  | c :: cs => leadsWith pat (c :: cs) || hasSubstr pat cs

/-- The file filter of lines 173-176: Python's `".pt" in file`,
substring containment in the file name. -/
def containsPt (name : String) : Bool :=
  hasSubstr ".pt".toList name.toList

/-- Observable steps of `run`, in program order: model load (line 87),
batch construction (lines 100-104), creation of the output directory
(line 107), a forward pass per batch with the normalized layer indices
(line 127), and the save of one result file per sequence (lines
136-165). -/
inductive Event where
  | modelLoaded
  | batchesConstructed
  | mkdirOutput
  | forward (batchIdx : Nat) (layers : List Int)
  | save (label : String) (result : List (String × RValue))
deriving DecidableEq

/-- The two abort paths of `run`: the `ValueError` for MSA Transformer
models (lines 89-92) and the failed layer-range assertion (lines
110-112). -/
inductive RunError where
  | msaUnsupported
  | assertionFailed
deriving DecidableEq

/-- One batch yielded by the data loader together with the model's
output on it: labels and raw strings of the sequences, and per layer the
batch representation tensor `[seq][token][dim]` plus the batch contact
tensor `[seq][row][col]`.  The model itself is external, so its outputs
are inputs to the embedding. -/
structure BatchData where
  labels : List String
  strs : List String
  reprOut : List (Nat × List (List (List ℚ)))
  contactsOut : List (List (List ℚ))
deriving DecidableEq

/-- The save events of the inner loop (lines 136-165) for one batch:
for each index `i` and label, build and save the result dictionary from
this sequence's slice of each layer tensor and of the contact tensor. -/
def saveEvents (inc : List String) (truncation_seq_length : Nat)
    (b : BatchData) : List Event :=
  (List.range b.labels.length).map (fun i =>
    Event.save (b.labels.getD i "")
      (buildResult inc (b.labels.getD i "")
        (b.reprOut.map (fun p => (p.1, p.2.getD i [])))
        (b.contactsOut.getD i [])
        truncation_seq_length
        (b.strs.getD i "").length))

/-- Embeds `run` (lines 86-167) as a trace of events plus an optional abort.
`isMSA` models `isinstance(model, MSATransformer)`; `num_layers` the
model depth; `batches` the data loader's batches paired with the model's
outputs.  Device movement and printing are omitted as unobservable. -/
def run (isMSA : Bool) (num_layers : Nat) (repr_layers : List Int)
    (inc : List String) (truncation_seq_length : Nat)
    (batches : List BatchData) : List Event × Option RunError :=
  if isMSA then
    ([Event.modelLoaded], some RunError.msaUnsupported)
  else if !layersInRange num_layers repr_layers then
    ([Event.modelLoaded, Event.batchesConstructed, Event.mkdirOutput],
     some RunError.assertionFailed)
  else
    ([Event.modelLoaded, Event.batchesConstructed, Event.mkdirOutput] ++
      (batches.enum.flatMap (fun bp =>
        Event.forward bp.1 (normalizeLayers num_layers repr_layers) ::
          saveEvents inc truncation_seq_length bp.2)),
     none)

/-- A file visited by the `os.walk` of `concatenate_files`: base name
plus the deserialized result object. -/
structure SavedFile where
  name : String
  data : List (String × RValue)
deriving DecidableEq

/-- Exceptions `concatenate_files` can raise while processing a file:
`KeyError` on a missing `label` or `mean_representations` key, a
`KeyError` from `popitem` on an empty dict (line 184), or an attribute
error when the stored value is not a layer-to-vector dict. -/
inductive ConcatError where
  | keyMissingLabel
  | keyMissingMean
  | popitemEmpty
  | notALayerDict
deriving DecidableEq

/-- The filter of lines 172-176: keep every file whose name contains
the substring `.pt`. -/
def matchedFiles (files : List SavedFile) : List SavedFile :=
  files.filter (fun f => containsPt f.name)

/-- Lines 181-188 for one file: read `label`, read
`mean_representations`, `popitem()` the last-inserted layer entry and
use its tensor as the row data, keyed by the label value. -/
def processFile (f : SavedFile) : Except ConcatError (RValue × List ℚ) :=
  match f.data.lookup "label" with
  | none => Except.error ConcatError.keyMissingLabel
  | some labelVal =>
    match f.data.lookup "mean_representations" with
    | none => Except.error ConcatError.keyMissingMean
    | some (RValue.vlayerVec m) =>
      match m.getLast? with
      | none => Except.error ConcatError.popitemEmpty
      | some p => Except.ok (labelVal, p.2)
    | some _ => Except.error ConcatError.notALayerDict

/-- The loop of lines 180-188: process the matched files in order; the
first exception aborts the whole pass. -/
def processFiles : List SavedFile → Except ConcatError (List (RValue × List ℚ))
  | [] => Except.ok []
  | f :: fs =>
    match processFile f with
    | Except.error e => Except.error e
    | Except.ok row =>
      match processFiles fs with
      | Except.error e => Except.error e
      | Except.ok rows => Except.ok (row :: rows)

/-- Embeds `concatenate_files` (lines 170-197): filter the walked files, build
one row per file, and either write the concatenated CSV (`some rows`) or
— when no dataframe was built — print "No data to concatenate." and
write nothing (`none`). -/
def concatenate_files (files : List SavedFile) :
    Except ConcatError (Option (List (RValue × List ℚ))) :=
  match processFiles (matchedFiles files) with
  | Except.error e => Except.error e
  | Except.ok rows =>
    if rows.isEmpty then Except.ok none else Except.ok (some rows)

/-- The `label` value stored in a saved file (defaulting for total
lookup; well-formed files always carry one). -/
def fileLabelValue (f : SavedFile) : RValue :=
  (f.data.lookup "label").getD (RValue.vstr "")

/-- A saved file on which `concatenate_files` succeeds: it has a
`label` entry and a non-empty `mean_representations` layer dict.  Files
written by `run` with `mean` included and at least one layer satisfy
this. -/
def GoodFile (f : SavedFile) : Prop :=
  (∃ s, f.data.lookup "label" = some (RValue.vstr s)) ∧
  (∃ m, f.data.lookup "mean_representations" = some (RValue.vlayerVec m) ∧ m ≠ [])

theorem leadsWith_iff (pat : List Char) :
    ∀ s, leadsWith pat s = true ↔ ∃ t, s = pat ++ t := by
  induction pat with
  | nil => intro s; simp [leadsWith]
  | cons p ps ih =>
    intro s
    cases s with
    | nil => simp [leadsWith]
    | cons c cs =>
      simp only [leadsWith, Bool.and_eq_true, beq_iff_eq, ih, List.cons_append,
        List.cons.injEq]
      constructor
      · rintro ⟨rfl, t, rfl⟩; exact ⟨t, rfl, rfl⟩
      · rintro ⟨t, rfl, rfl⟩; exact ⟨rfl, t, rfl⟩

theorem hasSubstr_iff (pat : List Char) :
    ∀ s, hasSubstr pat s = true ↔ ∃ a b, s = a ++ pat ++ b := by
  intro s
  induction s with
  | nil =>
    simp only [hasSubstr, leadsWith_iff]
    constructor
    · rintro ⟨t, ht⟩
      exact ⟨[], t, by simpa using ht⟩
    · rintro ⟨a, b, hab⟩
      rcases List.append_eq_nil.mp (List.append_eq_nil.mp hab.symm).1 with ⟨_, h2⟩
      exact ⟨b, by simp_all⟩
  | cons c cs ih =>
    simp only [hasSubstr, Bool.or_eq_true, leadsWith_iff, ih]
    constructor
    · rintro (⟨t, ht⟩ | ⟨a, b, hab⟩)
      · exact ⟨[], t, by simpa using ht⟩
      · exact ⟨c :: a, b, by simp [hab]⟩
    · rintro ⟨a, b, hab⟩
      cases a with
      | nil => exact Or.inl ⟨b, by simpa using hab⟩
      | cons x xs =>
        right
        simp only [List.cons_append, List.cons.injEq] at hab
        exact ⟨xs, b, hab.2⟩

/-- Claim C7: the device selector is a total function of the two availability
probes: MPS when the MPS probe is true, else CUDA when the CUDA probe is
true, else CPU; it always returns exactly one of the three, and CPU
whenever both probes are false. -/
theorem get_device_total (m c : Bool) :
    (get_device m c = Device.mps ∨ get_device m c = Device.cuda ∨
      get_device m c = Device.cpu) ∧
    (m = true → get_device m c = Device.mps) ∧
    (m = false → c = true → get_device m c = Device.cuda) ∧
    (m = false → c = false → get_device m c = Device.cpu) := by
  cases m <;> cases c <;> simp [get_device]

theorem get_device_total_witness : get_device false false = Device.cpu :=
  (get_device_total false false).2.2.2 rfl rfl

/-- Claim C8: every result dictionary built by the runner contains a `label`
entry holding the sequence's FASTA label, whatever the `--include`
flags. -/
theorem buildResult_label (inc : List String) (label : String)
    (reprRow : List (Nat × List (List ℚ))) (contactsRow : List (List ℚ))
    (tsl strLen : Nat) :
    (buildResult inc label reprRow contactsRow tsl strLen).lookup "label" =
      some (RValue.vstr label) := by
  unfold buildResult
  cases inc.contains "per_tok" <;> cases inc.contains "mean" <;>
    cases inc.contains "bos" <;> cases inc.contains "contacts" <;>
    simp [List.lookup]

/-- Claim C2 (counterexample): with `--include mean` the saved result's key
set is not the set implied by the `--include` flags, because the always
present `label` key lies outside it. -/
theorem buildResult_keys_label_extra :
    "label" ∈ (buildResult ["mean"] "a" [] [] 5 3).map Prod.fst ∧
    "label" ∉ impliedKeys ["mean"] := by
  decide

/-- Claim C2 (amended): besides the always-present `label` key, the keys of a
saved result are exactly those implied by the `--include` flags, in
order: `per_tok` contributes `representations`, `mean` contributes
`mean_representations`, `bos` contributes `bos_representations`,
`contacts` contributes `contacts`, and nothing else appears. -/
theorem buildResult_keys (inc : List String) (label : String)
    (reprRow : List (Nat × List (List ℚ))) (contactsRow : List (List ℚ))
    (tsl strLen : Nat) :
    (buildResult inc label reprRow contactsRow tsl strLen).map Prod.fst =
      "label" :: impliedKeys inc := by
  unfold buildResult impliedKeys
  cases inc.contains "per_tok" <;> cases inc.contains "mean" <;>
    cases inc.contains "bos" <;> cases inc.contains "contacts" <;> simp

/-- Claim C3: for an index `i` in the valid range, the runner normalizes `i`
to `(i + L + 1) % (L + 1)`; in particular `-1` resolves to the final
layer `L`, and non-negative indices are unchanged. -/
theorem normalizeLayer_spec (L : Nat) (i : Int)
    (_h1 : -((L : Int) + 1) ≤ i) (h2 : i ≤ (L : Int)) :
    normalizeLayers L [i] = [(i + (L : Int) + 1) % ((L : Int) + 1)] ∧
    normalizeLayer L (-1) = (L : Int) ∧
    (0 ≤ i → normalizeLayer L i = i) := by
  refine ⟨rfl, ?_, ?_⟩
  · simp only [normalizeLayer]
    have h : ((-1 : Int) + L + 1) = (L : Int) := by ring
    rw [h]
    exact Int.emod_eq_of_lt (by positivity) (by omega)
  · intro h0
    simp only [normalizeLayer]
    have h : (i + L + 1) = i + ((L : Int) + 1) * 1 := by ring
    rw [h, Int.add_mul_emod_self_left]
    exact Int.emod_eq_of_lt h0 (by omega)

theorem normalizeLayer_spec_witness : normalizeLayer 2 (-1) = (2 : Int) :=
  (normalizeLayer_spec 2 (-1) (by decide) (by decide)).2.1

/-- Claim C5: on an MSA Transformer model, `run` raises immediately after
loading: the trace holds only the model-load event — no batch
construction, no directory creation, no forward pass, no saved file. -/
theorem run_msa_aborts (L : Nat) (rl : List Int) (inc : List String)
    (tsl : Nat) (bs : List BatchData) :
    run true L rl inc tsl bs =
      ([Event.modelLoaded], some RunError.msaUnsupported) ∧
    Event.batchesConstructed ∉ (run true L rl inc tsl bs).1 ∧
    Event.mkdirOutput ∉ (run true L rl inc tsl bs).1 ∧
    (∀ b ls, Event.forward b ls ∉ (run true L rl inc tsl bs).1) ∧
    (∀ lab res, Event.save lab res ∉ (run true L rl inc tsl bs).1) := by
  simp [run]

/-- Claim C4: a layer index outside `[-(L+1), L]` makes `run` abort at the
assertion: the trace stops before any forward pass or saved file; and
when every index is in range the assertion never fires. -/
theorem run_assert_aborts (L : Nat) (rl : List Int) (inc : List String)
    (tsl : Nat) (bs : List BatchData) :
    ((∃ i ∈ rl, i < -((L : Int) + 1) ∨ (L : Int) < i) →
      run false L rl inc tsl bs =
        ([Event.modelLoaded, Event.batchesConstructed, Event.mkdirOutput],
         some RunError.assertionFailed) ∧
      (∀ b ls, Event.forward b ls ∉ (run false L rl inc tsl bs).1) ∧
      (∀ lab res, Event.save lab res ∉ (run false L rl inc tsl bs).1)) ∧
    ((∀ i ∈ rl, -((L : Int) + 1) ≤ i ∧ i ≤ (L : Int)) →
      (run false L rl inc tsl bs).2 ≠ some RunError.assertionFailed) := by
  constructor
  · intro hbad
    have hfalse : layersInRange L rl = false := by
      rcases hbad with ⟨i, hi, hout⟩
      apply Bool.eq_false_iff.mpr
      intro htrue
      unfold layersInRange at htrue
      have h2 := List.all_eq_true.mp htrue i hi
      have h3 := of_decide_eq_true h2
      omega
    refine ⟨by simp [run, hfalse], ?_, ?_⟩ <;> simp [run, hfalse]
  · intro hall
    have htrue : layersInRange L rl = true := by
      simp only [layersInRange, List.all_eq_true, decide_eq_true_eq]
      exact hall
    unfold run
    rw [htrue]
    simp

theorem run_assert_aborts_witness :
    run false 2 [5] ["mean"] 10 [] =
      ([Event.modelLoaded, Event.batchesConstructed, Event.mkdirOutput],
       some RunError.assertionFailed) :=
  ((run_assert_aborts 2 [5] ["mean"] 10 []).1 ⟨5, by decide, by decide⟩).1

/-- Claim C1: when `per_tok` and `contacts` are requested, the saved per-token
representation and contact map are sliced to `truncate_len = min(
truncation_seq_length, sequence length)` starting after the BOS
position: the per-token matrix has exactly `truncate_len` rows, row `j`
being token position `j + 1` of the full tensor (so never the BOS row 0
and, since `truncate_len ≤ strLen`, never the EOS/padding rows at
positions `≥ strLen + 1`), and the contact map is a `truncate_len` by
`truncate_len` matrix. -/
theorem run_truncation_slicing (inc : List String) (label : String)
    (reprRow : List (Nat × List (List ℚ))) (contactsRow : List (List ℚ))
    (tsl strLen : Nat)
    (hpt : inc.contains "per_tok" = true)
    (hct : inc.contains "contacts" = true)
    (hrepr : ∀ p ∈ reprRow, strLen + 2 ≤ p.2.length)
    (hcrows : min tsl strLen ≤ contactsRow.length)
    (hccols : ∀ row ∈ contactsRow, min tsl strLen ≤ row.length) :
    (buildResult inc label reprRow contactsRow tsl strLen).lookup "representations" =
      some (RValue.vlayerMat
        (reprRow.map (fun p => (p.1, sliceTokens p.2 (min tsl strLen))))) ∧
    (buildResult inc label reprRow contactsRow tsl strLen).lookup "contacts" =
      some (RValue.vmat (sliceContacts contactsRow (min tsl strLen))) ∧
    min tsl strLen ≤ strLen ∧
    (∀ p ∈ reprRow,
      (sliceTokens p.2 (min tsl strLen)).length = min tsl strLen ∧
      ∀ j < min tsl strLen,
        (sliceTokens p.2 (min tsl strLen))[j]? = p.2[j + 1]?) ∧
    (sliceContacts contactsRow (min tsl strLen)).length = min tsl strLen ∧
    (∀ row ∈ sliceContacts contactsRow (min tsl strLen),
      row.length = min tsl strLen) := by
  refine ⟨?_, ?_, Nat.min_le_right tsl strLen, ?_, ?_, ?_⟩
  · unfold buildResult
    rw [hpt, hct]
    cases inc.contains "mean" <;> cases inc.contains "bos" <;>
      simp [List.lookup]
  · unfold buildResult
    rw [hpt, hct]
    cases inc.contains "mean" <;> cases inc.contains "bos" <;>
      simp [List.lookup]
  · intro p hp
    have hlen := hrepr p hp
    have hmin := Nat.min_le_right tsl strLen
    constructor
    · simp only [sliceTokens, List.length_take, List.length_drop]
      omega
    · intro j hj
      simp only [sliceTokens]
      rw [List.getElem?_take_of_lt hj, List.getElem?_drop, Nat.add_comm 1 j]
  · simp only [sliceContacts, List.length_map, List.length_take]
    omega
  · intro row hrow
    simp only [sliceContacts, List.mem_map] at hrow
    rcases hrow with ⟨orig, horig, rfl⟩
    have : orig ∈ contactsRow := List.take_subset _ _ horig
    have := hccols orig this
    simp only [List.length_take]
    omega

theorem run_truncation_slicing_witness :
    (sliceTokens [[(0 : ℚ)], [1], [2], [3]] (min 1022 2)).length = min 1022 2 :=
  ((run_truncation_slicing ["per_tok", "contacts"] "a"
      [(0, [[(0 : ℚ)], [1], [2], [3]])] [[1, 2], [3, 4]] 1022 2
      (by decide) (by decide) (by decide) (by decide) (by decide)).2.2.2.1
    (0, [[(0 : ℚ)], [1], [2], [3]]) (by decide)).1

theorem processFile_good (f : SavedFile) (hg : GoodFile f) :
    ∃ r, processFile f = Except.ok r ∧ r.1 = fileLabelValue f := by
  obtain ⟨⟨s, hs⟩, m, hm, hne⟩ := hg
  cases hml : m.getLast? with
  | none => exact absurd (List.getLast?_eq_none_iff.mp hml) hne
  | some p =>
    refine ⟨(RValue.vstr s, p.2), ?_, ?_⟩
    · simp only [processFile, hs, hm, hml]
    · simp [fileLabelValue, hs]

theorem processFiles_good (l : List SavedFile) (hg : ∀ f ∈ l, GoodFile f) :
    ∃ rows, processFiles l = Except.ok rows ∧
      rows.map Prod.fst = l.map fileLabelValue ∧
      rows.length = l.length := by
  induction l with
  | nil => exact ⟨[], rfl, rfl, rfl⟩
  | cons f fs ih =>
    obtain ⟨r, hr, hr1⟩ := processFile_good f (hg f (List.mem_cons_self f fs))
    obtain ⟨rows, hrows, hmap, hlen⟩ :=
      ih (fun g hgm => hg g (List.mem_cons_of_mem f hgm))
    refine ⟨r :: rows, ?_, ?_, ?_⟩
    · unfold processFiles
      rw [hr, hrows]
    · simp [hmap, hr1]
    · simp [hlen]

theorem processFiles_ok_mem (l : List SavedFile)
    (rows : List (RValue × List ℚ)) (h : processFiles l = Except.ok rows) :
    ∀ f ∈ l, ∃ r, processFile f = Except.ok r := by
  induction l generalizing rows with
  | nil => intro f hf; cases hf
  | cons g gs ih =>
    intro f hf
    unfold processFiles at h
    cases hpg : processFile g with
    | error e => rw [hpg] at h; cases h
    | ok r =>
      rw [hpg] at h
      cases hps : processFiles gs with
      | error e => rw [hps] at h; cases h
      | ok rs =>
        rcases List.mem_cons.mp hf with rfl | hmem
        · exact ⟨r, hpg⟩
        · exact ih rs hps f hmem

/-- Claim C9: the concatenator selects a file iff its name contains `.pt`
anywhere as a substring — not only as a final extension — so `x.pth` and
`a.pt.bak` are included while a name without the substring is
excluded. -/
theorem matchedFiles_substring (files : List SavedFile) (f : SavedFile) :
    (f ∈ matchedFiles files ↔ f ∈ files ∧ containsPt f.name = true) ∧
    (containsPt f.name = true ↔
      ∃ a b, f.name.toList = a ++ ".pt".toList ++ b) ∧
    containsPt "x.pth" = true ∧
    containsPt "a.pt.bak" = true ∧
    containsPt "protein1.pt" = true ∧
    containsPt "readme.txt" = false := by
  refine ⟨?_, hasSubstr_iff _ _, by decide, by decide, by decide, by decide⟩
  simp [matchedFiles, List.mem_filter]

/-- Claim C10: a matched file without a `mean_representations` key makes the
concatenator raise (so no CSV is written); a successful pass forces
every matched file to hold a non-empty `mean_representations` layer
dict, and on such a file the row is the tensor of the last-inserted
layer entry (`popitem`), keyed by the stored label. -/
theorem concat_mean_required (files : List SavedFile) :
    ((∃ f ∈ matchedFiles files,
        f.data.lookup "mean_representations" = none) →
      ∃ e, concatenate_files files = Except.error e) ∧
    (∀ v, concatenate_files files = Except.ok v →
      ∀ f ∈ matchedFiles files, ∃ m,
        f.data.lookup "mean_representations" = some (RValue.vlayerVec m) ∧
        m ≠ []) ∧
    (∀ f lv m, f.data.lookup "label" = some lv →
      f.data.lookup "mean_representations" = some (RValue.vlayerVec m) →
      m ≠ [] →
      ∃ p, m.getLast? = some p ∧ processFile f = Except.ok (lv, p.2)) := by
  refine ⟨?_, ?_, ?_⟩
  · rintro ⟨f, hf, hmean⟩
    cases hps : processFiles (matchedFiles files) with
    | error e => exact ⟨e, by unfold concatenate_files; rw [hps]⟩
    | ok rows =>
      exfalso
      obtain ⟨r, hr⟩ := processFiles_ok_mem _ rows hps f hf
      cases hl : f.data.lookup "label" <;>
        simp [processFile, hl, hmean] at hr
  · intro v hv f hf
    unfold concatenate_files at hv
    cases hps : processFiles (matchedFiles files) with
    | error e => rw [hps] at hv; cases hv
    | ok rows =>
      obtain ⟨r, hr⟩ := processFiles_ok_mem _ rows hps f hf
      cases hl : f.data.lookup "label" with
      | none => simp [processFile, hl] at hr
      | some lv =>
        cases hm : f.data.lookup "mean_representations" with
        | none => simp [processFile, hl, hm] at hr
        | some val =>
          cases val with
          | vlayerVec m =>
            refine ⟨m, rfl, ?_⟩
            intro hnil
            subst hnil
            simp [processFile, hl, hm] at hr
          | vstr s => simp [processFile, hl, hm] at hr
          | vlayerMat mm => simp [processFile, hl, hm] at hr
          | vmat mm => simp [processFile, hl, hm] at hr
  · intro f lv m hl hm hne
    cases hml : m.getLast? with
    | none => exact absurd (List.getLast?_eq_none_iff.mp hml) hne
    | some p => exact ⟨p, rfl, by simp only [processFile, hl, hm, hml]⟩

theorem concat_mean_required_witness :
    ∃ e, concatenate_files [⟨"a.pt", [("label", RValue.vstr "a")]⟩] =
      Except.error e :=
  (concat_mean_required [⟨"a.pt", [("label", RValue.vstr "a")]⟩]).1
    ⟨⟨"a.pt", [("label", RValue.vstr "a")]⟩, by decide, by decide⟩

/-- Claim C6: with no matching saved file the concatenator writes nothing and
raises nothing — it just reports no data; with at least one matched
file, all well formed, it writes a CSV whose rows are keyed by the
labels stored in the files. -/
theorem concat_empty_noop (files : List SavedFile) :
    (matchedFiles files = [] → concatenate_files files = Except.ok none) ∧
    ((matchedFiles files ≠ [] ∧ ∀ f ∈ matchedFiles files, GoodFile f) →
      ∃ rows, concatenate_files files = Except.ok (some rows) ∧
        rows.map Prod.fst = (matchedFiles files).map fileLabelValue) := by
  constructor
  · intro h
    unfold concatenate_files
    rw [h]
    rfl
  · rintro ⟨hne, hgood⟩
    obtain ⟨rows, hrows, hmap, hlen⟩ := processFiles_good _ hgood
    cases rows with
    | nil =>
      exact absurd (List.length_eq_zero.mp (by simpa using hlen.symm)) hne
    | cons r rs =>
      refine ⟨r :: rs, ?_, hmap⟩
      unfold concatenate_files
      rw [hrows]
      rfl

theorem concat_empty_noop_witness :
    concatenate_files [] = Except.ok none :=
  (concat_empty_noop []).1 rfl
